import Mathlib

/-!
Verification of the `texit` command-line converter (src/texit.py).

Strings are modelled as `List Char`.  The single regular expression

  `PATTERN = (?P<marker>^-bp|^-bf|^-br|^-bbr|^-und|)?([ ]*)?(?P<text>.*)?(?P<nln>\n)?`

is embedded by `reMarker` (ordered alternation of literal prefixes, the
generated alternation ending in an empty alternative) and `reText`
(skip the marker, greedily drop spaces, take characters up to a newline,
since `.` does not match a newline).  The dispatch of `add_tex_syntax`
is translated branch for branch; dictionary lookups are modelled by an
association-list lookup returning `Option`, and a raised `KeyError` is
modelled by a `none` result of the whole function.
-/

/-- The space character (the only member of the `[ ]` class). -/
def spaceChar : Char := Char.ofNat 32

/-- The newline character. -/
def nlChar : Char := Char.ofNat 10

/-- Constant `common['large_txt']`: `size['large'] + ctt_type['text'] + brace['open']`. -/
def large_txt : List Char := ("\\large" ++ "\\text" ++ "\x7b").toList

/-- Constant `brace['close']`. -/
def brace_close : List Char := "\x7d".toList

/-- Constant `common['end_slash']`: a double backslash. -/
def end_slash : List Char := "\\\\".toList

/-- Constant `common['tex_dollars']`. -/
def tex_dollars : List Char := "$$".toList

/-- Set `needs_2nd_close_brace = \x7b'-und',\x7d` of the source. -/
def needs_2nd_close_brace : List (List Char) := ["-und".toList]

/-- The `mapping` dict, in insertion order. -/
def mapping : List (List Char × List Char) :=
  [("-bp".toList, "\\bullet".toList ++ large_txt ++ " ".toList),
   ("-bf".toList, "\\large".toList ++ "\\textbf\x7b".toList),
   ("-br".toList, "$$$$".toList),
   ("-bbr".toList, "$$ $$".toList),
   ("-und".toList, "\\underline\x7b".toList ++ large_txt)]

/-- Dict lookup `mapping[k]`; `none` models a raised `KeyError`. -/
def mappingLookup (k : List Char) : Option (List Char) :=
  (mapping.find? (fun p => p.1 == k)).map (fun p => p.2)

/-- The alternatives of the generated `marker` group, in order.  The
generator `''.join(['^' + str(x) + '|' for x in mapping.keys()])` leaves a
trailing `|`, so the alternation ends in an empty alternative. -/
def markerAlternatives : List (List Char) :=
  ["-bp".toList, "-bf".toList, "-br".toList, "-bbr".toList, "-und".toList,
   "".toList]

/-- The value of `match.group('marker')` for `re.match(PATTERN, line)`:
the first alternative that matches at the start of the line (`none` models
a non-participating group, i.e. the Python value `None`). -/
def reMarker (line : List Char) : Option (List Char) :=
  markerAlternatives.find? (fun m => m.isPrefixOf line)

/-- The value of `match.group('text')`: after the marker, `([ ]*)?`
greedily eats spaces and `(?P<text>.*)?` greedily takes everything up to
(not including) a newline. -/
def reText (line : List Char) (marker : List Char) : List Char :=
  ((line.drop marker.length).dropWhile (fun c => c == spaceChar)).takeWhile
    (fun c => !(c == nlChar))

/-- Function `add_tex_syntax`, branch for branch.  The first `if marker is None`
statement appends its fragments and then falls through into the second
`if`/`elif`/`else` chain, whose final branch evaluates `mapping[marker]`;
for `marker = None` that lookup raises `KeyError`, modelled by `none`. -/
def add_tex_syntax (line : List Char) : Option (List Char) :=
  let markerOpt := reMarker line
  let text := reText line (markerOpt.getD [])
  let pre : List Char :=
    match markerOpt with
    | none => large_txt ++ text ++ end_slash
    | some _ => []
  if markerOpt = some ("-br".toList) then
    (mappingLookup ("-br".toList)).map (fun v => pre ++ v)
  else if markerOpt = some ("-bbr".toList) then
    (mappingLookup ("-bbr".toList)).map (fun v => pre ++ v)
  else if markerOpt = some [] ∧ text ≠ [] then
    some (pre ++ large_txt ++ text ++ brace_close ++ end_slash)
  else if markerOpt = some [] ∧ text = [] then
    (mappingLookup ("-br".toList)).map (fun v => pre ++ v)
  else
    match markerOpt with
    | none => none
    | some m =>
        (mappingLookup m).map (fun v =>
          pre ++ v ++ text ++ brace_close ++
            (if m ∈ needs_2nd_close_brace then brace_close else end_slash))

theorem empty_str_toList : ("".toList : List Char) = [] := rfl

theorem empty_isPrefixOf (l : List Char) : ("".toList).isPrefixOf l = true := by
  rw [empty_str_toList]; exact List.isPrefixOf_nil_left

theorem isPrefixOf_append_self : ∀ (l r : List Char), l.isPrefixOf (l ++ r) = true
  | [], _ => List.isPrefixOf_nil_left
  | c :: cs, r => by
      simp [List.cons_append, List.isPrefixOf, isPrefixOf_append_self cs r]

theorem find?_marker_pos (p : List Char → Bool) (a : List Char)
    (l : List (List Char)) (h : p a = true) :
    List.find? p (a :: l) = some a := List.find?_cons_of_pos l h

theorem find?_marker_neg (p : List Char → Bool) (a : List Char)
    (l : List (List Char)) (h : ¬ p a = true) :
    List.find? p (a :: l) = List.find? p l := List.find?_cons_of_neg l h

/-- The marker group's value is always one of the six alternatives. -/
theorem reMarker_cases (line : List Char) :
    reMarker line = some ("-bp".toList) ∨ reMarker line = some ("-bf".toList) ∨
    reMarker line = some ("-br".toList) ∨ reMarker line = some ("-bbr".toList) ∨
    reMarker line = some ("-und".toList) ∨ reMarker line = some [] := by
  unfold reMarker markerAlternatives
  by_cases h1 : ("-bp".toList).isPrefixOf line = true
  · exact Or.inl (find?_marker_pos (fun m => m.isPrefixOf line) ("-bp".toList) _ h1)
  rw [find?_marker_neg (fun m => m.isPrefixOf line) ("-bp".toList) _ h1]
  by_cases h2 : ("-bf".toList).isPrefixOf line = true
  · exact Or.inr (Or.inl (find?_marker_pos (fun m => m.isPrefixOf line) ("-bf".toList) _ h2))
  rw [find?_marker_neg (fun m => m.isPrefixOf line) ("-bf".toList) _ h2]
  by_cases h3 : ("-br".toList).isPrefixOf line = true
  · exact Or.inr (Or.inr (Or.inl (find?_marker_pos (fun m => m.isPrefixOf line) ("-br".toList) _ h3)))
  rw [find?_marker_neg (fun m => m.isPrefixOf line) ("-br".toList) _ h3]
  by_cases h4 : ("-bbr".toList).isPrefixOf line = true
  · exact Or.inr (Or.inr (Or.inr (Or.inl (find?_marker_pos (fun m => m.isPrefixOf line) ("-bbr".toList) _ h4))))
  rw [find?_marker_neg (fun m => m.isPrefixOf line) ("-bbr".toList) _ h4]
  by_cases h5 : ("-und".toList).isPrefixOf line = true
  · exact Or.inr (Or.inr (Or.inr (Or.inr (Or.inl
      (find?_marker_pos (fun m => m.isPrefixOf line) ("-und".toList) _ h5)))))
  rw [find?_marker_neg (fun m => m.isPrefixOf line) ("-und".toList) _ h5,
    find?_marker_pos (fun m => m.isPrefixOf line) ("".toList) _ (empty_isPrefixOf line)]
  exact Or.inr (Or.inr (Or.inr (Or.inr (Or.inr (by rw [empty_str_toList])))))

/-- If none of the five fixed markers occurs at the start of the line, the
marker group captures the empty-string sentinel. -/
theorem reMarker_of_no_fixed (line : List Char)
    (h : (("-bp".toList).isPrefixOf line || ("-bf".toList).isPrefixOf line ||
      ("-br".toList).isPrefixOf line || ("-bbr".toList).isPrefixOf line ||
      ("-und".toList).isPrefixOf line) = false) :
    reMarker line = some [] := by
  have p1 := Bool.or_eq_false_iff.mp h
  have k5 := p1.2
  have p2 := Bool.or_eq_false_iff.mp p1.1
  have k4 := p2.2
  have p3 := Bool.or_eq_false_iff.mp p2.1
  have k3 := p3.2
  have p4 := Bool.or_eq_false_iff.mp p3.1
  have k2 := p4.2
  have k1 := p4.1
  unfold reMarker markerAlternatives
  rw [find?_marker_neg (fun m => m.isPrefixOf line) ("-bp".toList) _ (fun hh => Bool.false_ne_true (k1.symm.trans hh)),
    find?_marker_neg (fun m => m.isPrefixOf line) ("-bf".toList) _ (fun hh => Bool.false_ne_true (k2.symm.trans hh)),
    find?_marker_neg (fun m => m.isPrefixOf line) ("-br".toList) _ (fun hh => Bool.false_ne_true (k3.symm.trans hh)),
    find?_marker_neg (fun m => m.isPrefixOf line) ("-bbr".toList) _ (fun hh => Bool.false_ne_true (k4.symm.trans hh)),
    find?_marker_neg (fun m => m.isPrefixOf line) ("-und".toList) _ (fun hh => Bool.false_ne_true (k5.symm.trans hh)),
    find?_marker_pos (fun m => m.isPrefixOf line) ("".toList) _ (empty_isPrefixOf line), empty_str_toList]

theorem add_eq_of_marker_br {line : List Char}
    (h : reMarker line = some ("-br".toList)) :
    add_tex_syntax line = some ("$$$$".toList) := by
  simp only [ add_tex_syntax, h]
  rw [if_pos trivial]
  decide

theorem add_eq_of_marker_bbr {line : List Char}
    (h : reMarker line = some ("-bbr".toList)) :
    add_tex_syntax line = some ("$$ $$".toList) := by
  simp only [ add_tex_syntax, h]
  rw [if_neg (by decide), if_pos trivial]
  decide

theorem add_eq_of_marker_empty_text {line : List Char}
    (h : reMarker line = some []) (ht : reText line [] ≠ []) :
    add_tex_syntax line =
      some (large_txt ++ reText line [] ++ brace_close ++ end_slash) := by
  simp only [ add_tex_syntax, h, Option.getD_some]
  rw [if_neg (by decide), if_neg (by decide), if_pos ⟨trivial, ht⟩]
  simp

theorem add_eq_of_marker_empty_notext {line : List Char}
    (h : reMarker line = some []) (ht : reText line [] = []) :
    add_tex_syntax line = some ("$$$$".toList) := by
  simp only [ add_tex_syntax, h, Option.getD_some]
  rw [if_neg (by decide), if_neg (by decide),
    if_neg (fun hc => hc.2 ht), if_pos ⟨trivial, ht⟩]
  decide

theorem add_tex_of_fixed {line m : List Char}
    (h : reMarker line = some m)
    (hm : m = "-bp".toList ∨ m = "-bf".toList ∨ m = "-und".toList) :
    add_tex_syntax line = (mappingLookup m).map (fun v =>
      v ++ reText line m ++ brace_close ++
        (if m ∈ needs_2nd_close_brace then brace_close else end_slash)) := by
  rcases hm with hm | hm | hm <;> subst hm <;>
    (simp only [ add_tex_syntax, h, Option.getD_some]
     rw [if_neg (by decide), if_neg (by decide),
       if_neg (fun hc => absurd hc.1 (by decide)),
       if_neg (fun hc => absurd hc.1 (by decide))]
     simp [mappingLookup, mapping])

/-- C1 counterexample: on input `"hello"` (no fixed marker, non-empty text)
the code takes the empty-string-sentinel branch and does append a closing
brace, so the claimed output (no closing brace) is wrong. -/
theorem transform_plain_text_counterexample :
    add_tex_syntax ("hello".toList) =
        some (large_txt ++ "hello".toList ++ brace_close ++ end_slash) ∧
    add_tex_syntax ("hello".toList) ≠
        some (large_txt ++ "hello".toList ++ end_slash) := by decide

/-- C1 (amended): for every line in which no fixed marker is recognized and
the remaining text is non-empty, `add_tex_syntax` returns the large-text
opening fragment + text + a closing brace + the line-continuation token.
(The plain-text branch the spec describes requires `marker is None`, which
never happens; the sentinel branch does emit a closing brace.) -/
theorem transform_plain_text_amended (line : List Char)
    (hm : (("-bp".toList).isPrefixOf line || ("-bf".toList).isPrefixOf line ||
      ("-br".toList).isPrefixOf line || ("-bbr".toList).isPrefixOf line ||
      ("-und".toList).isPrefixOf line) = false)
    (ht : reText line [] ≠ []) :
    add_tex_syntax line =
      some (large_txt ++ reText line [] ++ brace_close ++ end_slash) :=
  add_eq_of_marker_empty_text (reMarker_of_no_fixed line hm) ht

theorem transform_plain_text_amended_witness :
    add_tex_syntax ("hello".toList) =
      some (large_txt ++ "hello".toList ++ brace_close ++ end_slash) := by
  have h := transform_plain_text_amended ("hello".toList) (by decide) (by decide)
  rw [show reText ("hello".toList) [] = "hello".toList from rfl] at h
  exact h

/-- C2 counterexample: the empty line does not produce the large-text
opening fragment + continuation token; it produces the `-br` literal. -/
theorem transform_empty_line_counterexample :
    add_tex_syntax ("".toList) ≠
        some (large_txt ++ "".toList ++ end_slash) ∧
    add_tex_syntax ("".toList) = some ("$$$$".toList) := by decide

/-- C2 (amended): the empty input line takes the empty-string-sentinel,
empty-text branch, so `add_tex_syntax ""` is the `-br` literal `$$$$`. -/
theorem transform_empty_line :
    add_tex_syntax ("".toList) = some ("$$$$".toList) := by decide

/-- C5: `add_tex_syntax` is total: it succeeds (returns `some`) on every
input string, so in particular every dictionary lookup it performs
succeeds and the `KeyError` path is unreachable. -/
theorem add_tex_syntax_total (line : List Char) :
    ( add_tex_syntax line).isSome = true := by
  rcases reMarker_cases line with h | h | h | h | h | h
  · rw [add_tex_of_fixed h (Or.inl rfl)]; rfl
  · rw [add_tex_of_fixed h (Or.inr (Or.inl rfl))]; rfl
  · rw [add_eq_of_marker_br h]; rfl
  · rw [add_eq_of_marker_bbr h]; rfl
  · rw [add_tex_of_fixed h (Or.inr (Or.inr rfl))]; rfl
  · by_cases ht : reText line [] = []
    · rw [add_eq_of_marker_empty_notext h ht]; rfl
    · rw [add_eq_of_marker_empty_text h ht]; rfl

/-- C6: whenever the recognized marker is exactly `-br` the output is the
literal `$$$$`, and whenever it is exactly `-bbr` the output is the literal
`$$ $$`, whatever trailing text the line carries. -/
theorem transform_br_markers (line : List Char) :
    (reMarker line = some ("-br".toList) →
      add_tex_syntax line = some ("$$$$".toList)) ∧
    (reMarker line = some ("-bbr".toList) →
      add_tex_syntax line = some ("$$ $$".toList)) :=
  ⟨add_eq_of_marker_br, add_eq_of_marker_bbr⟩

theorem transform_br_markers_witness :
    add_tex_syntax ("-br xyz".toList) = some ("$$$$".toList) ∧
    add_tex_syntax ("-bbr abc".toList) = some ("$$ $$".toList) :=
  ⟨(transform_br_markers ("-br xyz".toList)).1 (by decide),
   (transform_br_markers ("-bbr abc".toList)).2 (by decide)⟩

theorem ws_no_fixed (c : Char) (rest : List Char)
    (hc : c = spaceChar ∨ c = nlChar) :
    (("-bp".toList).isPrefixOf (c :: rest) ||
     ("-bf".toList).isPrefixOf (c :: rest) ||
     ("-br".toList).isPrefixOf (c :: rest) ||
     ("-bbr".toList).isPrefixOf (c :: rest) ||
     ("-und".toList).isPrefixOf (c :: rest)) = false := by
  rcases hc with hc | hc <;> subst hc <;>
    simp [List.isPrefixOf_cons₂,
      (by decide : ('-' == spaceChar) = false),
      (by decide : ('-' == nlChar) = false)]

theorem ws_text_nil : ∀ (l : List Char),
    l.all (fun c => c == spaceChar || c == nlChar) = true →
    (l.dropWhile (fun c => c == spaceChar)).takeWhile
      (fun c => !(c == nlChar)) = [] := by
  intro l
  induction l with
  | nil => intro _; rfl
  | cons c rest ih =>
    intro h
    rw [List.all_cons] at h
    have h1 := ((Bool.and_eq_true _ _).mp h).1
    have h2 := ((Bool.and_eq_true _ _).mp h).2
    by_cases hsp : (c == spaceChar) = true
    · rw [List.dropWhile_cons, if_pos hsp]
      exact ih h2
    · have hnl : (c == nlChar) = true := by
        rcases (Bool.or_eq_true _ _).mp h1 with h' | h'
        · exact absurd h' hsp
        · exact h'
      rw [List.dropWhile_cons, if_neg hsp, List.takeWhile_cons,
        if_neg (by rw [hnl]; exact Bool.false_ne_true)]

/-- Every all-whitespace line (spaces and newlines only, including the
empty line) is transformed to the `-br` literal `$$$$`. -/
theorem ws_transform (line : List Char)
    (hws : line.all (fun c => c == spaceChar || c == nlChar) = true) :
    add_tex_syntax line = some ("$$$$".toList) := by
  have hmark : reMarker line = some [] := by
    cases line with
    | nil => decide
    | cons c rest =>
      rw [List.all_cons] at hws
      have h1 := ((Bool.and_eq_true _ _).mp hws).1
      refine reMarker_of_no_fixed _ (ws_no_fixed c rest ?_)
      rcases (Bool.or_eq_true _ _).mp h1 with h' | h'
      · exact Or.inl (beq_iff_eq.mp h')
      · exact Or.inr (beq_iff_eq.mp h')
  have htext : reText line [] = [] := by
    unfold reText
    rw [show (line.drop (List.length [])) = line from by simp]
    exact ws_text_nil line hws
  exact add_eq_of_marker_empty_notext hmark htext

/-- C3: the generated alternation ends in an empty alternative, so the
marker group always participates (`reMarker` is never `none` and the
`marker is None` branch is unreachable); a line that starts with no fixed
marker gets the empty-string sentinel; all-whitespace and empty lines
yield `$$$$`; unmarked non-empty text always gets a closing brace. -/
theorem marker_group_total (line : List Char) :
    (reMarker line).isSome = true ∧
    ((("-bp".toList).isPrefixOf line || ("-bf".toList).isPrefixOf line ||
      ("-br".toList).isPrefixOf line || ("-bbr".toList).isPrefixOf line ||
      ("-und".toList).isPrefixOf line) = false → reMarker line = some []) ∧
    (line.all (fun c => c == spaceChar || c == nlChar) = true →
      add_tex_syntax line = some ("$$$$".toList)) ∧
    (reMarker line = some [] → reText line [] ≠ [] →
      add_tex_syntax line =
        some (large_txt ++ reText line [] ++ brace_close ++ end_slash)) := by
  refine ⟨?_, reMarker_of_no_fixed line, ws_transform line,
    fun h ht => add_eq_of_marker_empty_text h ht⟩
  rcases reMarker_cases line with h | h | h | h | h | h <;> rw [h] <;> rfl

theorem marker_group_total_witness :
    (reMarker ("hello".toList)).isSome = true ∧
    reMarker ("xyz".toList) = some [] ∧
    add_tex_syntax ("  ".toList) = some ("$$$$".toList) ∧
    add_tex_syntax ("hi".toList) =
      some (large_txt ++ "hi".toList ++ brace_close ++ end_slash) := by
  refine ⟨(marker_group_total ("hello".toList)).1,
    (marker_group_total ("xyz".toList)).2.1 (by decide),
    (marker_group_total ("  ".toList)).2.2.1 (by decide), ?_⟩
  have h := (marker_group_total ("hi".toList)).2.2.2 (by decide) (by decide)
  rw [show reText ("hi".toList) [] = "hi".toList from rfl] at h
  exact h

/-- C7: for a recognized marker in `{-bp, -bf, -und}` the output is the
marker's expansion template + text + one closing brace, followed by a
second closing brace exactly for the markers of `needs_2nd_close_brace`
(that is, exactly `-und`) and by the continuation token otherwise. -/
theorem transform_fixed_marker (line m : List Char)
    (h : reMarker line = some m)
    (hm : m = "-bp".toList ∨ m = "-bf".toList ∨ m = "-und".toList) :
    ∃ tmpl, mappingLookup m = some tmpl ∧
      add_tex_syntax line = some (tmpl ++ reText line m ++ brace_close ++
        (if m ∈ needs_2nd_close_brace then brace_close else end_slash)) ∧
      (m ∈ needs_2nd_close_brace ↔ m = "-und".toList) := by
  rcases hm with hm | hm | hm <;> subst hm
  · exact ⟨_, rfl, by rw [add_tex_of_fixed h (Or.inl rfl)]; rfl, by decide⟩
  · exact ⟨_, rfl, by rw [add_tex_of_fixed h (Or.inr (Or.inl rfl))]; rfl,
      by decide⟩
  · exact ⟨_, rfl, by rw [add_tex_of_fixed h (Or.inr (Or.inr rfl))]; rfl,
      by decide⟩

theorem transform_fixed_marker_witness :
    add_tex_syntax ("-und important".toList) =
      some ("\\underline\x7b\\large\\text\x7bimportant\x7d\x7d".toList) ∧
    add_tex_syntax ("-bf title".toList) =
      some ("\\large\\textbf\x7btitle\x7d\\\\".toList) := by
  constructor
  · obtain ⟨t1, ht1, he1, -⟩ := transform_fixed_marker ("-und important".toList)
      ("-und".toList) (by decide) (Or.inr (Or.inr rfl))
    rw [show mappingLookup ("-und".toList) =
      some ("\\underline\x7b\\large\\text\x7b".toList) from rfl] at ht1
    have heq := Option.some.inj ht1
    subst heq
    exact he1.trans (by decide)
  · obtain ⟨t2, ht2, he2, -⟩ := transform_fixed_marker ("-bf title".toList)
      ("-bf".toList) (by decide) (Or.inr (Or.inl rfl))
    rw [show mappingLookup ("-bf".toList) =
      some ("\\large\\textbf\x7b".toList) from rfl] at ht2
    have heq := Option.some.inj ht2
    subst heq
    exact he2.trans (by decide)

theorem isPrefixOf_append₄ (l a b c : List Char) :
    l.isPrefixOf (l ++ a ++ b ++ c) = true := by
  have h := isPrefixOf_append_self l (a ++ b ++ c)
  simpa [List.append_assoc] using h

/-- C9: for every fixed marker `m` and newline-free text `t`, the
transform of `m ++ " " ++ t` succeeds and its output starts with `m`'s
expansion template; the last conjunct records determinism, which is
trivial for the pure embedded function. -/
theorem transform_marker_template (m t : List Char)
    (hm : m = "-bp".toList ∨ m = "-bf".toList ∨ m = "-br".toList ∨
      m = "-bbr".toList ∨ m = "-und".toList)
    (ht : ¬ nlChar ∈ t) :
    ∃ tmpl out, mappingLookup m = some tmpl ∧
      add_tex_syntax (m ++ spaceChar :: t) = some out ∧
      tmpl.isPrefixOf out = true ∧
      add_tex_syntax (m ++ spaceChar :: t) =
        add_tex_syntax (m ++ spaceChar :: t) := by
  rcases hm with hm | hm | hm | hm | hm <;> subst hm
  · refine ⟨"\\bullet\\large\\text\x7b ".toList,
      "\\bullet\\large\\text\x7b ".toList ++
        reText ("-bp".toList ++ spaceChar :: t) ("-bp".toList) ++
          brace_close ++ end_slash, rfl, ?_,
      isPrefixOf_append₄ _ _ _ _, rfl⟩
    rw [add_tex_of_fixed (rfl :
      reMarker ("-bp".toList ++ spaceChar :: t) = some ("-bp".toList))
      (Or.inl rfl)]
    rfl
  · refine ⟨"\\large\\textbf\x7b".toList,
      "\\large\\textbf\x7b".toList ++
        reText ("-bf".toList ++ spaceChar :: t) ("-bf".toList) ++
          brace_close ++ end_slash, rfl, ?_,
      isPrefixOf_append₄ _ _ _ _, rfl⟩
    rw [add_tex_of_fixed (rfl :
      reMarker ("-bf".toList ++ spaceChar :: t) = some ("-bf".toList))
      (Or.inr (Or.inl rfl))]
    rfl
  · exact ⟨"$$$$".toList, "$$$$".toList, rfl,
      add_eq_of_marker_br (rfl :
        reMarker ("-br".toList ++ spaceChar :: t) = some ("-br".toList)),
      by decide, rfl⟩
  · exact ⟨"$$ $$".toList, "$$ $$".toList, rfl,
      add_eq_of_marker_bbr (rfl :
        reMarker ("-bbr".toList ++ spaceChar :: t) = some ("-bbr".toList)),
      by decide, rfl⟩
  · refine ⟨"\\underline\x7b\\large\\text\x7b".toList,
      "\\underline\x7b\\large\\text\x7b".toList ++
        reText ("-und".toList ++ spaceChar :: t) ("-und".toList) ++
          brace_close ++ brace_close, rfl, ?_,
      isPrefixOf_append₄ _ _ _ _, rfl⟩
    rw [add_tex_of_fixed (rfl :
      reMarker ("-und".toList ++ spaceChar :: t) = some ("-und".toList))
      (Or.inr (Or.inr rfl))]
    rfl

theorem transform_marker_template_witness :
    ("\\bullet\\large\\text\x7b ".toList).isPrefixOf
      (( add_tex_syntax ("-bp hi".toList)).getD []) = true := by
  obtain ⟨tmpl, out, h1, h2, h3, -⟩ := transform_marker_template
    ("-bp".toList) ("hi".toList) (Or.inl rfl) (by decide)
  rw [show ("-bp hi".toList : List Char) =
    "-bp".toList ++ spaceChar :: "hi".toList from by decide, h2,
    Option.getD_some]
  have he : "\\bullet\\large\\text\x7b ".toList = tmpl :=
    Option.some.inj ((rfl : mappingLookup ("-bp".toList) =
      some ("\\bullet\\large\\text\x7b ".toList)).symm.trans h1)
  rw [← he] at h3
  exact h3

/-- Outcome of one round of the overwrite prompt in `main`. -/
inductive PromptResult where
  | abort
  | overwrite
  | reprompt
deriving DecidableEq

/-- Python `str.lower`, character by character (ASCII range). -/
def pyLower (s : List Char) : List Char := s.map Char.toLower

/-- Python's substring test `nee in hay`. -/
def pyIn (nee : List Char) : List Char → Bool
  | [] => nee.isEmpty
  | c :: rest => nee.isPrefixOf (c :: rest) || pyIn nee rest

/-- One round of the overwrite prompt: `overwrite_permission.lower() in 'n'`
exits, `overwrite_permission.lower() in 'y'` overwrites, anything else
re-prompts. -/
def classify_overwrite_response (r : List Char) : PromptResult :=
  if pyIn (pyLower r) ("n".toList) = true then PromptResult.abort
  else if pyIn (pyLower r) ("y".toList) = true then PromptResult.overwrite
  else PromptResult.reprompt

/-- The `while True` prompt loop over a stream of responses: `some false`
models `sys.exit` with nothing written, `some true` models breaking out
with `file_overwritten = True`, `none` means every response re-prompted. -/
def overwrite_prompt_loop : List (List Char) → Option Bool
  | [] => none
  | r :: rs =>
    match classify_overwrite_response r with
    | PromptResult.abort => some false
    | PromptResult.overwrite => some true
    | PromptResult.reprompt => overwrite_prompt_loop rs

theorem pyIn_singleton (l : List Char) (c : Char) :
    pyIn l [c] = true ↔ (l = [] ∨ l = [c]) := by
  match l with
  | [] => simp [pyIn]
  | [a] => simp [pyIn, List.isPrefixOf_cons₂, List.isPrefixOf]
  | a :: b :: rest =>
      simp [pyIn, List.isPrefixOf_cons₂, List.isPrefixOf_cons_nil]

theorem pyIn_n (l : List Char) :
    pyIn l ("n".toList) = true ↔ (l = [] ∨ l = "n".toList) := by
  rw [show ("n".toList : List Char) = ['n'] from rfl]
  exact pyIn_singleton l 'n'

theorem pyIn_y (l : List Char) :
    pyIn l ("y".toList) = true ↔ (l = [] ∨ l = "y".toList) := by
  rw [show ("y".toList : List Char) = ['y'] from rfl]
  exact pyIn_singleton l 'y'

theorem prompt_loop_skips (junk : List (List Char)) (r : List Char)
    (hjunk : ∀ j ∈ junk,
      classify_overwrite_response j = PromptResult.reprompt) :
    overwrite_prompt_loop (junk ++ [r]) =
      (match classify_overwrite_response r with
       | PromptResult.abort => some false
       | PromptResult.overwrite => some true
       | PromptResult.reprompt => none) := by
  revert hjunk
  induction junk with
  | nil =>
    intro _
    cases hc : classify_overwrite_response r <;>
      simp [overwrite_prompt_loop, hc]
  | cons j js ih =>
    intro hjunk
    have hj := hjunk j (by simp)
    simp only [List.cons_append, overwrite_prompt_loop, hj]
    exact ih (fun x hx => hjunk x (by simp [hx]))

/-- C4 counterexample: the empty response is neither `y` nor `n`, yet it
does not re-prompt: Python's `'' in 'n'` is true, so the code treats the
empty response as a decline and exits. -/
theorem prompt_empty_response_counterexample :
    classify_overwrite_response ("".toList) = PromptResult.abort ∧
    classify_overwrite_response ("".toList) ≠ PromptResult.reprompt ∧
    ¬ pyLower ("".toList) = "y".toList ∧
    ¬ pyLower ("".toList) = "n".toList ∧
    overwrite_prompt_loop [("".toList)] = some false := by decide

/-- C4 (amended): the loop re-asks until a decisive response arrives; a
response whose lowercasing is `n` or the empty string exits with nothing
written, a response whose lowercasing is `y` overwrites, and every other
response re-prompts (case-insensitively; the only deviation from the
claim is that the empty response is treated like `n`, because the code
uses Python's substring test `in`). -/
theorem prompt_loop_amended (junk : List (List Char)) (r : List Char)
    (hjunk : ∀ j ∈ junk,
      classify_overwrite_response j = PromptResult.reprompt) :
    (classify_overwrite_response r = PromptResult.abort ↔
      (pyLower r = [] ∨ pyLower r = "n".toList)) ∧
    (classify_overwrite_response r = PromptResult.overwrite ↔
      pyLower r = "y".toList) ∧
    (classify_overwrite_response r = PromptResult.reprompt ↔
      (¬ (pyLower r = [] ∨ pyLower r = "n".toList) ∧
        ¬ pyLower r = "y".toList)) ∧
    overwrite_prompt_loop (junk ++ [r]) =
      (match classify_overwrite_response r with
       | PromptResult.abort => some false
       | PromptResult.overwrite => some true
       | PromptResult.reprompt => none) := by
  refine ⟨?_, ?_, ?_, prompt_loop_skips junk r hjunk⟩ <;>
    unfold classify_overwrite_response
  all_goals by_cases h1 : pyIn (pyLower r) ("n".toList) = true
  · rw [if_pos h1]
    exact ⟨fun _ => (pyIn_n _).mp h1, fun _ => rfl⟩
  · rw [if_neg h1]
    have hnd : ¬ (pyLower r = [] ∨ pyLower r = "n".toList) :=
      fun hd => h1 ((pyIn_n _).mpr hd)
    by_cases h2 : pyIn (pyLower r) ("y".toList) = true
    · rw [if_pos h2]
      exact ⟨fun hc => absurd hc (by decide), fun hd => absurd hd hnd⟩
    · rw [if_neg h2]
      exact ⟨fun hc => absurd hc (by decide), fun hd => absurd hd hnd⟩
  · rw [if_pos h1]
    have hd := (pyIn_n _).mp h1
    constructor
    · intro hc
      exact absurd hc (by decide)
    · intro hyy
      rcases hd with hd | hd <;> rw [hd] at hyy <;> exact absurd hyy (by decide)
  · rw [if_neg h1]
    by_cases h2 : pyIn (pyLower r) ("y".toList) = true
    · rw [if_pos h2]
      have hd := (pyIn_y _).mp h2
      rcases hd with hd | hd
      · exact absurd ((pyIn_n _).mpr (Or.inl hd)) h1
      · exact ⟨fun _ => hd, fun _ => rfl⟩
    · rw [if_neg h2]
      refine ⟨fun hc => absurd hc (by decide), fun hd => ?_⟩
      exact absurd ((pyIn_y _).mpr (Or.inr hd)) h2
  · rw [if_pos h1]
    have hd := (pyIn_n _).mp h1
    exact ⟨fun hc => absurd hc (by decide),
      fun hcc => absurd hd hcc.1⟩
  · rw [if_neg h1]
    have hnd : ¬ (pyLower r = [] ∨ pyLower r = "n".toList) :=
      fun hd => h1 ((pyIn_n _).mpr hd)
    by_cases h2 : pyIn (pyLower r) ("y".toList) = true
    · rw [if_pos h2]
      have hd := (pyIn_y _).mp h2
      rcases hd with hd | hd
      · exact absurd ((pyIn_n _).mpr (Or.inl hd)) h1
      · exact ⟨fun hc => absurd hc (by decide), fun hcc => absurd hd hcc.2⟩
    · rw [if_neg h2]
      have hny : ¬ pyLower r = "y".toList :=
        fun hd => h2 ((pyIn_y _).mpr (Or.inr hd))
      exact ⟨fun _ => ⟨hnd, hny⟩, fun _ => rfl⟩

theorem prompt_loop_amended_witness :
    overwrite_prompt_loop [("maybe".toList), ("N".toList)] = some false := by
  have h := prompt_loop_amended [("maybe".toList)] ("N".toList) (by decide)
  rw [show ([("maybe".toList), ("N".toList)] : List (List Char)) =
    [("maybe".toList)] ++ [("N".toList)] from rfl, h.2.2.2]
  decide

theorem reText_count_nl (line marker : List Char) :
    (reText line marker).count nlChar = 0 := by
  rw [List.count_eq_zero]
  intro hmem
  have hp := List.mem_takeWhile_imp hmem
  simp at hp

/-- Function `add_tex_syntax` always succeeds and its output never contains a
newline (the `text` group cannot match one and no template contains
one). -/
theorem add_tex_newline_free (line : List Char) :
    ∃ out, add_tex_syntax line = some out ∧ out.count nlChar = 0 := by
  rcases reMarker_cases line with h | h | h | h | h | h
  · refine ⟨"\\bullet\\large\\text\x7b ".toList ++
      reText line ("-bp".toList) ++ brace_close ++ end_slash, ?_, ?_⟩
    · rw [add_tex_of_fixed h (Or.inl rfl)]; rfl
    · rw [List.count_append, List.count_append, List.count_append,
        reText_count_nl]
      decide
  · refine ⟨"\\large\\textbf\x7b".toList ++
      reText line ("-bf".toList) ++ brace_close ++ end_slash, ?_, ?_⟩
    · rw [add_tex_of_fixed h (Or.inr (Or.inl rfl))]; rfl
    · rw [List.count_append, List.count_append, List.count_append,
        reText_count_nl]
      decide
  · exact ⟨"$$$$".toList, add_eq_of_marker_br h, by decide⟩
  · exact ⟨"$$ $$".toList, add_eq_of_marker_bbr h, by decide⟩
  · refine ⟨"\\underline\x7b\\large\\text\x7b".toList ++
      reText line ("-und".toList) ++ brace_close ++ brace_close, ?_, ?_⟩
    · rw [add_tex_of_fixed h (Or.inr (Or.inr rfl))]; rfl
    · rw [List.count_append, List.count_append, List.count_append,
        reText_count_nl]
      decide
  · by_cases ht : reText line [] = []
    · exact ⟨"$$$$".toList, add_eq_of_marker_empty_notext h ht, by decide⟩
    · refine ⟨large_txt ++ reText line [] ++ brace_close ++ end_slash,
        add_eq_of_marker_empty_text h ht, ?_⟩
      rw [List.count_append, List.count_append, List.count_append,
        reText_count_nl]
      decide

/-- The per-line loop body of `process_files`: transform every line in
order (`none` as soon as one transform would raise). -/
def transformAll : List (List Char) → Option (List (List Char))
  | [] => some []
  | l :: ls =>
    match add_tex_syntax l, transformAll ls with
    | some o, some os => some (o :: os)
    | _, _ => none

/-- Function `process_files`: write `add_tex_syntax(line)` followed by a newline,
for each line of the input file in order. -/
def process_files (lines : List (List Char)) : Option (List Char) :=
  (transformAll lines).map (fun outs =>
    (outs.map (fun o => o ++ [nlChar])).flatten)

/-- The whole output written by `main`: the `$$` delimiter line, the
processed lines, and the closing `$$` delimiter line. -/
def texit_output (lines : List (List Char)) : Option (List Char) :=
  (process_files lines).map (fun body =>
    tex_dollars ++ [nlChar] ++ body ++ tex_dollars ++ [nlChar])

theorem transformAll_spec : ∀ lines : List (List Char),
    ∃ outs, transformAll lines = some outs ∧
      outs.length = lines.length ∧
      ((outs.map (fun o => o ++ [nlChar])).flatten).count nlChar =
        lines.length ∧
      outs.all (fun o => o.count nlChar == 0) = true := by
  intro lines
  induction lines with
  | nil => exact ⟨[], rfl, rfl, rfl, rfl⟩
  | cons l ls ih =>
    obtain ⟨outs, h1, h2, h3, h4⟩ := ih
    obtain ⟨o, ho, hco⟩ := add_tex_newline_free l
    refine ⟨o :: outs, ?_, ?_, ?_, ?_⟩
    · simp [transformAll, ho, h1]
    · simp [h2]
    · rw [List.map_cons, List.flatten_cons, List.count_append,
        List.count_append, hco, h3]
      simp [Nat.add_comm]
    · rw [List.all_cons, h4]
      simp [hco]

/-- C8: for every input file of `N` lines the written output is exactly
the `$$` delimiter line, then one transformed line per input line in
input order (each followed by a newline and containing no newline
itself), then the `$$` delimiter line — so it contains exactly `N + 2`
newline-terminated lines. -/
theorem end_to_end_line_count (lines : List (List Char)) :
    ∃ outs, transformAll lines = some outs ∧
      outs.length = lines.length ∧
      outs.all (fun o => o.count nlChar == 0) = true ∧
      texit_output lines = some (tex_dollars ++ [nlChar] ++
        (outs.map (fun o => o ++ [nlChar])).flatten ++
        tex_dollars ++ [nlChar]) ∧
      (tex_dollars ++ [nlChar] ++
        (outs.map (fun o => o ++ [nlChar])).flatten ++
        tex_dollars ++ [nlChar]).count nlChar = lines.length + 2 := by
  obtain ⟨outs, h1, h2, h3, h4⟩ := transformAll_spec lines
  refine ⟨outs, h1, h2, h4, ?_, ?_⟩
  · unfold texit_output process_files
    rw [h1]
    rfl
  · rw [List.count_append, List.count_append, List.count_append,
      List.count_append, h3]
    simp [tex_dollars, nlChar]
    omega

/-- Python's `\w` word-character class (ASCII range). -/
def wordChar (c : Char) : Bool := c.isAlphanum || c == '_'

/-- The `[-\w\.]` character class of the `name` group of
`infile_pattern`. -/
def nameChar (c : Char) : Bool := c == '-' || wordChar c || c == '.'

/-- The anchored extension group `(?P<ext>\.[\w]*)$`: a dot, a greedy run
of word characters, and `$`, which matches at the end of the string or
just before a final newline. -/
def extOk : List Char → Bool
  | [] => false
  | c :: rest =>
    c == '.' &&
      ((rest.dropWhile wordChar).isEmpty ||
        rest.dropWhile wordChar == [nlChar])

/-- The greedy `name` group `[-\w\.]*` followed by the anchored
extension: the longest name for which the remainder matches
`\.[\w]*$`. -/
def greedyName : List Char → Option (List Char × List Char)
  | [] => none
  | c :: rest =>
    if nameChar c then
      match greedyName rest with
      | some (n, e) => some (c :: n, e)
      | none => if extOk (c :: rest) then some ([], c :: rest) else none
    else
      if extOk (c :: rest) then some ([], c :: rest) else none

/-- The lazy `origin` group `(?P<origin>.*?)?`: the shortest prefix of
non-newline characters whose remainder yields a name/extension split;
`none` models an overall failure of `re.match`. -/
def lazyOrigin : List Char → Option (List Char × List Char × List Char)
  | [] => none
  | c :: rest =>
    match greedyName (c :: rest) with
    | some (n, e) => some ([], n, e)
    | none =>
      if c == nlChar then none
      else (lazyOrigin rest).map (fun x => (c :: x.1, x.2.1, x.2.2))

/-- Lines 74–80 of `main`: match `infile_pattern` against the input path
and build `origin + name + '_texit_out.txt'`; `none` models the
`AttributeError` raised when the pattern does not match at all. -/
def derive_outfile_path (s : List Char) : Option (List Char) :=
  (lazyOrigin s).map (fun x => x.1 ++ x.2.1 ++ "_texit_out.txt".toList)

theorem dropWhile_word_all_nil : ∀ l : List Char, l.all wordChar = true →
    l.dropWhile wordChar = [] := by
  intro l
  induction l with
  | nil => intro _; rfl
  | cons c rest ih =>
    intro h
    rw [List.all_cons] at h
    rw [List.dropWhile_cons, if_pos ((Bool.and_eq_true _ _).mp h).1]
    exact ih ((Bool.and_eq_true _ _).mp h).2

theorem mem_dropWhile_of_not_word (b : Char) (hbw : wordChar b = false) :
    ∀ l : List Char, b ∈ l → b ∈ l.dropWhile wordChar := by
  intro l
  induction l with
  | nil => intro h; exact absurd h (List.not_mem_nil b)
  | cons c rest ih =>
    intro hmem
    by_cases hc : wordChar c = true
    · rw [List.dropWhile_cons, if_pos hc]
      rcases List.mem_cons.mp hmem with he | he
      · have hbt : wordChar b = true := by rw [he]; exact hc
        rw [hbt] at hbw
        exact absurd hbw (by decide)
      · exact ih he
    · rw [List.dropWhile_cons, if_neg hc]
      exact hmem

theorem greedyName_of_word : ∀ s : List Char, s.all wordChar = true →
    greedyName s = none := by
  intro s
  induction s with
  | nil => intro _; rfl
  | cons c rest ih =>
    intro h
    rw [List.all_cons] at h
    have hc := ((Bool.and_eq_true _ _).mp h).1
    have hr := ((Bool.and_eq_true _ _).mp h).2
    have hcd : (c == '.') = false := by
      by_cases hcc : (c == '.') = true
      · have he := beq_iff_eq.mp hcc
        rw [he] at hc
        exact absurd hc (by decide)
      · exact Bool.eq_false_iff.mpr hcc
    simp [greedyName, nameChar, hc, ih hr, extOk, hcd]

theorem greedyName_none_of_bad (b : Char) (hbn : nameChar b = false)
    (hbnl : ¬ b = nlChar) :
    ∀ s : List Char, b ∈ s → greedyName s = none := by
  have hbd : (b == '.') = false := by
    by_cases hdd : (b == '.') = true
    · have he := beq_iff_eq.mp hdd
      rw [he] at hbn
      exact absurd hbn (by decide)
    · exact Bool.eq_false_iff.mpr hdd
  have hbw : wordChar b = false := by
    by_cases hww : wordChar b = true
    · have : nameChar b = true := by simp [nameChar, hww]
      rw [this] at hbn
      exact absurd hbn (by decide)
    · exact Bool.eq_false_iff.mpr hww
  intro s
  induction s with
  | nil => intro h; exact absurd h (List.not_mem_nil b)
  | cons c rest ih =>
    intro hmem
    rcases List.mem_cons.mp hmem with hc | hc
    · have hcn : nameChar c = false := by rw [← hc] at *; exact hbn
      have hcd : (c == '.') = false := by rw [← hc] at *; exact hbd
      simp [greedyName, hcn, extOk, hcd]
    · have hrest := ih hc
      have hbrem := mem_dropWhile_of_not_word b hbw rest hc
      have hrem1 : ((rest.dropWhile wordChar).isEmpty) = false := by
        by_cases hee : ((rest.dropWhile wordChar).isEmpty) = true
        · rw [List.isEmpty_iff] at hee
          rw [hee] at hbrem
          exact absurd hbrem (List.not_mem_nil b)
        · exact Bool.eq_false_iff.mpr hee
      have hrem2 : (rest.dropWhile wordChar == [nlChar]) = false := by
        by_cases hee : (rest.dropWhile wordChar == [nlChar]) = true
        · have he := beq_iff_eq.mp hee
          rw [he] at hbrem
          rcases List.mem_cons.mp hbrem with hx | hx
          · exact absurd hx hbnl
          · exact absurd hx (List.not_mem_nil b)
        · exact Bool.eq_false_iff.mpr hee
      have hext : extOk (c :: rest) = false := by
        simp [extOk, hrem1, hrem2]
      by_cases hnc : nameChar c = true
      · simp [greedyName, hnc, hrest, hext]
      · simp [greedyName, Bool.eq_false_iff.mpr hnc, hext]

theorem greedyName_split (ext : List Char) (hext : ext.all wordChar = true) :
    ∀ base : List Char, base.all nameChar = true →
      greedyName (base ++ '.' :: ext) = some (base, '.' :: ext) := by
  intro base
  induction base with
  | nil =>
    intro _
    have hg : greedyName ext = none := greedyName_of_word ext hext
    have hdw : ext.dropWhile wordChar = [] := dropWhile_word_all_nil ext hext
    simp [greedyName, nameChar, hg, extOk, hdw]
  | cons b bs ih =>
    intro hall
    rw [List.all_cons] at hall
    have hb := ((Bool.and_eq_true _ _).mp hall).1
    have hbs := ((Bool.and_eq_true _ _).mp hall).2
    simp [List.cons_append, greedyName, hb, ih hbs]

theorem lazyOrigin_eq (s : List Char) :
    lazyOrigin s =
      (match greedyName s with
       | some (n, e) => some (([] : List Char), n, e)
       | none =>
         match s with
         | [] => none
         | c :: rest =>
           if c == nlChar then none
           else (lazyOrigin rest).map
             (fun x => (c :: x.1, x.2.1, x.2.2))) := by
  cases s with
  | nil => rfl
  | cons c rest => rfl

theorem lazyOrigin_split (base ext : List Char)
    (hbase : base.all nameChar = true) (hext : ext.all wordChar = true) :
    ∀ dir : List Char, dir.all (fun c => !(c == nlChar)) = true →
      (dir = [] ∨ ∃ d, dir.getLast? = some d ∧ nameChar d = false) →
      lazyOrigin (dir ++ base ++ '.' :: ext) = some (dir, base, '.' :: ext) := by
  intro dir
  induction dir with
  | nil =>
    intro _ _
    rw [List.nil_append, lazyOrigin_eq, greedyName_split ext hext base hbase]
  | cons c ds ih =>
    intro hnl hlast
    rcases hlast with h | ⟨d, hd, hdn⟩
    · exact absurd h (by simp)
    have hdmem : d ∈ c :: ds := List.mem_of_getLast?_eq_some hd
    have hdnl : ¬ d = nlChar := by
      intro he
      have hx := (List.all_eq_true.mp hnl) d hdmem
      rw [he] at hx
      simp at hx
    have hstep : ((c :: ds) ++ base ++ '.' :: ext : List Char) =
        c :: (ds ++ base ++ '.' :: ext) := by
      simp [List.cons_append]
    have hdmem2 : d ∈ c :: (ds ++ base ++ '.' :: ext) := by
      rcases List.mem_cons.mp hdmem with hx | hx
      · rw [hx]; exact List.mem_cons_self _ _
      · exact List.mem_cons_of_mem _
          (List.mem_append.mpr (Or.inl (List.mem_append.mpr (Or.inl hx))))
    have hbad : greedyName (c :: (ds ++ base ++ '.' :: ext)) = none :=
      greedyName_none_of_bad d hdn hdnl _ hdmem2
    have hcnl : ¬ (c == nlChar) = true := by
      have hx := (List.all_eq_true.mp hnl) c (List.mem_cons_self c ds)
      intro hcc
      rw [hcc] at hx
      exact absurd hx (by decide)
    have hnl' : ds.all (fun c => !(c == nlChar)) = true := by
      rw [List.all_cons] at hnl
      exact ((Bool.and_eq_true _ _).mp hnl).2
    have hlast' : ds = [] ∨ ∃ d', ds.getLast? = some d' ∧
        nameChar d' = false := by
      cases ds with
      | nil => exact Or.inl rfl
      | cons d2 ds2 =>
        refine Or.inr ⟨d, ?_, hdn⟩
        rw [List.getLast?_cons_cons] at hd
        exact hd
    rw [hstep, lazyOrigin_eq, hbad]
    dsimp only
    rw [if_neg hcnl, ih hnl' hlast']
    rfl

/-- C10: for an input path made of a directory part (empty or ending in a
character outside the name class `[-\w.]`, e.g. `/`, and containing no
newline), a base name over `[-\w.]`, and a non-empty word-character
extension after a dot, the derived output path is the same directory part
plus the base name with the extension stripped and `_texit_out.txt`
appended. -/
theorem outfile_path_derivation (dir base ext : List Char)
    (hdirnl : dir.all (fun c => !(c == nlChar)) = true)
    (hdir : dir = [] ∨ ∃ d, dir.getLast? = some d ∧ nameChar d = false)
    (hbase : base.all nameChar = true)
    (hext : ext.all wordChar = true) (hne : ext ≠ []) :
    derive_outfile_path (dir ++ base ++ '.' :: ext) =
      some (dir ++ base ++ "_texit_out.txt".toList) := by
  unfold derive_outfile_path
  rw [lazyOrigin_split base ext hbase hext dir hdirnl hdir]
  rfl

theorem outfile_path_derivation_witness :
    derive_outfile_path ("/a/b/notes.txt".toList) =
      some ("/a/b/notes_texit_out.txt".toList) := by
  have h := outfile_path_derivation ("/a/b/".toList) ("notes".toList)
    ("txt".toList) (by decide) (Or.inr ⟨'/', by decide, by decide⟩)
    (by decide) (by decide) (by decide)
  rw [show ("/a/b/notes.txt".toList : List Char) =
    "/a/b/".toList ++ "notes".toList ++ '.' :: "txt".toList from by decide,
    h]
  decide
